import Mathlib

/-!
# Verification of the slackclean harvesting-and-deletion pipeline

Shallow embedding of `cli.go` from anrid/slackclean: the timestamp codec,
the message/file selection filters, the thread-reply expansion loop, the
file-listing page loop, the deletion executors, and the dry-run gate of
`main`.  Remote API replies are modelled as explicit response scripts
consumed in call order.  Go strings are modelled as `List Char` (byte-wise
comparison of UTF-8 strings agrees with codepoint-wise comparison), Go
`int64` values as `Int` with explicit clamping where `strconv.ParseInt`
clamps.
-/

namespace SlackClean

/-- A Slack message as used by `cli.go` (`slack.Message`): author id,
opaque timestamp string, thread-root timestamp string, channel id, text. -/
structure Message where
  User : String
  Timestamp : String
  ThreadTimestamp : String
  Channel : String
  Text : String
deriving DecidableEq, Repr

/-- A Slack file as used by `cli.go` (`slack.File`): id, name, and the
`Created` field (`slack.JSONTime`, unix seconds as int64). -/
structure File where
  ID : String
  Name : String
  Created : Int
deriving DecidableEq, Repr

/-- A conversation record as used in `Channels` (`slack.Channel`): the
fields the classification at cli.go:247-275 reads. -/
structure Chan where
  ID : String
  Name : String
  User : String
  IsMpIM : Bool
  IsIM : Bool
  IsPrivate : Bool
deriving DecidableEq, Repr

/-! ## Go string primitives -/

/-- Go byte-wise string order `<` on UTF-8 strings, modelled on the
codepoint sequence (UTF-8 byte order coincides with codepoint order). -/
def goLtChars : List Char → List Char → Bool
  | _, [] => false
  | [], _ :: _ => true
  | a :: as, b :: bs =>
    if a.toNat < b.toNat then true
    else if b.toNat < a.toNat then false
    else goLtChars as bs

/-- Go `s > t` on strings (cli.go:325 compares `m.Timestamp > s.beforeTS`). -/
def goStrGt (s t : String) : Bool := goLtChars t.data s.data

/-- `l1` occurs as a contiguous run at the head of `l2`. -/
def listPrefixOf : List Char → List Char → Bool
  | [], _ => true
  | _ :: _, [] => false
  | a :: as, b :: bs => a = b && listPrefixOf as bs

/-- Go `strings.Contains(text, pat)`: `pat` occurs contiguously in `text`
(cli.go:143 checks the error text for "rate limit"). -/
def strContains (text pat : List Char) : Bool :=
  match text with
  | [] => listPrefixOf pat []
  | _ :: rest => listPrefixOf pat text || strContains rest pat

/-- Go `strings.Split(s, sep)` for a one-character separator
(cli.go:131 splits a Slack timestamp on "."). -/
def splitOnChar (sep : Char) : List Char → List (List Char)
  | [] => [[]]
  | c :: cs =>
    if c = sep then [] :: splitOnChar sep cs
    else
      match splitOnChar sep cs with
      | [] => [[c]]
      | p :: ps => (c :: p) :: ps

/-! ## strconv.ParseInt (base 10, bitSize 64) -/

/-- ASCII decimal digit test. -/
def isDigitChar (c : Char) : Bool := 48 ≤ c.toNat && c.toNat ≤ 57

/-- Every character is an ASCII digit. -/
def allDigits (cs : List Char) : Bool := cs.all isDigitChar

/-- Numeric value of an ASCII digit character. -/
def digitVal (c : Char) : Nat := c.toNat - 48

/-- Value of a big-endian ASCII decimal digit string. -/
def digitsVal (cs : List Char) : Nat :=
  cs.foldl (fun a c => a * 10 + digitVal c) 0

def maxInt64 : Int := 9223372036854775807

def minInt64 : Int := -9223372036854775808

/-- Unsigned part of Go `strconv.ParseInt(s, 10, 64)`: result value and ok
flag.  On a syntax error Go returns value 0; on a range error it returns
the clamped extreme value.  In both error cases ok is false. -/
def parseDigitsGo (neg : Bool) (cs : List Char) : Int × Bool :=
  if cs = [] then (0, false)
  else if allDigits cs then
    let v : Int := (digitsVal cs : Nat)
    if neg then
      if v ≤ 9223372036854775808 then (-v, true) else (minInt64, false)
    else
      if v ≤ maxInt64 then (v, true) else (maxInt64, false)
  else (0, false)

/-- Go `strconv.ParseInt(s, 10, 64)`: optional sign then decimal digits;
returns the parsed value and an ok flag (false on syntax or range error). -/
def parseIntGo : List Char → Int × Bool
  | [] => (0, false)
  | c :: rest =>
    if c = '+' then parseDigitsGo false rest
    else if c = '-' then parseDigitsGo true rest
    else parseDigitsGo false (c :: rest)

/-! ## Timestamp codec (cli.go:130-140) -/

/-- `SlackTSToTime` (cli.go:130-135): split the text on ".", parse both
parts with `strconv.ParseInt` DISCARDING the errors (`sec, _ := ...`), and
build `time.Unix(sec, nsec*1000)`, i.e. the instant
`sec * 10^9 + nsec * 1000` nanoseconds since the epoch.  The unchecked
index `parts[1]` panics when the input has no "."; the panic is modelled
as `none`. -/
def SlackTSToTime (cs : List Char) : Option Int :=
  match splitOnChar '.' cs with
  | p0 :: p1 :: _ =>
    some ((parseIntGo p0).1 * 1000000000 + (parseIntGo p1).1 * 1000)
  | _ => none

/-- `TimeToSlackTS` (cli.go:137-140) for a non-negative instant (the
program's domain): print `unixNano/1000` in decimal and insert a "."
before the last six digits.  The Go slice `ts[0:len(ts)-6]` panics when
the printed string is shorter than six characters; modelled as `none`. -/
def TimeToSlackTS (unixNano : Nat) : Option (List Char) :=
  let ts := (Nat.repr (unixNano / 1000)).data
  if ts.length < 6 then none
  else some (ts.take (ts.length - 6) ++ '.' :: ts.drop (ts.length - 6))

/-! ## Rate-limit classification (cli.go:142-149) -/

/-- The pattern `ratelimitOrPanic` looks for in the error text. -/
def rateLimitPat : List Char := "rate limit".data

/-- `ratelimitOrPanic` (cli.go:142-149): an error whose text contains
"rate limit" makes the function print, sleep one second and return (the
caller is expected to retry); any other error panics, aborting the run.
`true` means "returned (retry)", `false` means "panicked". -/
def ratelimitOrPanicReturns (errText : List Char) : Bool :=
  strContains errText rateLimitPat

/-! ## Selection filters (cli.go:191-194, 205-211, 315-328) -/

/-- The per-message guard block of `Messages` (cli.go:318-328): a message
is staged for deletion unless (a) an author filter is active and the
message's author EQUALS the target id (`m.User == userID` ⟹ keep), or
(b) its timestamp string is Go-greater than the cutoff's Slack-TS string
(`m.Timestamp > s.beforeTS` ⟹ keep). -/
def messageSelected (userID : String) (beforeTS : String) (m : Message) : Bool :=
  if userID ≠ "" ∧ m.User = userID then false
  else if goStrGt m.Timestamp beforeTS then false
  else true

/-- The per-file guard of `Files` (cli.go:206): a file is staged for
deletion when `f.Created < s.beforeTSUnix` (strict int64 comparison). -/
def fileSelected (beforeTSUnix : Int) (f : File) : Bool :=
  f.Created < beforeTSUnix

/-! ## Conversation classification (cli.go:247-275) -/

/-- Go map read `users[key]` on a `map[string]string`: the zero value ""
when the key is absent. -/
def goMapGet (users : List (String × String)) (k : String) : String :=
  match users.lookup k with
  | some v => v
  | none => ""

/-- The name `Channels` matches the filter against (cli.go:247-275):
`c.Name` for multiparty, private and public conversations, and
`users[c.User]` (the peer's handle via the Go map, zero value "" when
unresolved) for direct-message conversations. -/
def channelFilterName (users : List (String × String)) (c : Chan) : String :=
  if c.IsMpIM then c.Name
  else if c.IsIM then goMapGet users c.User
  else c.Name

/-! ## Remote responses and loop outcomes

Each loop in `cli.go` issues one remote call per iteration; a run of the
loop is modelled against a script of responses consumed in call order.
An exhausted script while the loop would still iterate is `spin`. -/

/-- One `GetConversationReplies` response (cli.go:359): the replies page,
the has-more flag and the next cursor; or an error with its text. -/
inductive RepliesResp where
  | okR (msgs : List Message) (hasMore : Bool) (nextCursor : String)
  | errR (text : String)
deriving DecidableEq, Repr

/-- Outcome of a message-collecting loop: the collected list, a panic
(fatal error), or an exhausted response script. -/
inductive ROutcome where
  | done (msgs : List Message)
  | fatal
  | spin
deriving DecidableEq, Repr

/-- The reply-fetching loop of `Messages` (cli.go:358-384): on an error,
`ratelimitOrPanic` then `continue` (retry the call); on a page, stamp
each reply with the parent channel id (`r.Channel = c.ID`) and append it;
stop when `hasMore` is false, otherwise advance the cursor and loop. -/
def repliesLoop (cid : String) (acc : List Message) : List RepliesResp → ROutcome
  | [] => .spin
  | .errR text :: rest =>
    if ratelimitOrPanicReturns text.data then repliesLoop cid acc rest
    else .fatal
  | .okR msgs hasMore _ :: rest =>
    let acc2 := acc ++ msgs.map (fun r => { r with Channel := cid })
    if hasMore then repliesLoop cid acc2 rest else .done acc2

/-- The body of the per-message loop of `Messages` (cli.go:315-385) for
one message `m` of channel `cid`: apply the author and time guards
(`messageSelected`); if the message survives, stamp it with the channel
id and append it; if it is additionally a thread root
(`m.ThreadTimestamp != "" && m.Timestamp == m.ThreadTimestamp`), run
`repliesLoop` and append every reply.  Returns the list of messages this
iteration appends to `messagesToDelete`. -/
def processMessage (userID beforeTS cid : String) (m : Message)
    (script : List RepliesResp) : ROutcome :=
  if messageSelected userID beforeTS m then
    let m2 := { m with Channel := cid }
    if m.ThreadTimestamp ≠ "" ∧ m.Timestamp = m.ThreadTimestamp then
      match repliesLoop cid [] script with
      | .done rs => .done (m2 :: rs)
      | .fatal => .fatal
      | .spin => .spin
    else .done [m2]
  else .done []

/-- A well-formed reply-listing response script: `init` pages each
reporting has-more with a next cursor, then a final page reporting no
more replies. -/
def repliesScript (init : List (List Message × String)) (lastPage : List Message) :
    List RepliesResp :=
  init.map (fun p => .okR p.1 true p.2) ++ [.okR lastPage false ""]

/-- One `ListFiles` response (cli.go:200).  Go returns result values
alongside the error; on an error the slice and next-params returned by
the failed call accompany it (`none` models a nil params pointer). -/
inductive FilesResp where
  | okF (items : List File) (nextCursor : String)
  | errF (text : String) (items : List File) (nextParams : Option String)
deriving DecidableEq, Repr

/-- Outcome of the `Files` page loop: the collected files, a panic with
the fatal error text, a nil-pointer dereference, or an exhausted script. -/
inductive FOutcome where
  | done (fs : List File)
  | fatal (text : String)
  | nilPanic
  | spin
deriving DecidableEq, Repr

/-- The page loop of `Files` for one channel (cli.go:196-218).  NOTE the
missing `continue`: after a rate-limited error, `ratelimitOrPanic`
returns and the body FALLS THROUGH, filtering the failed call's returned
slice and reading `p.Cursor` from its returned params — a nil params
pointer is then a nil-pointer dereference (`nilPanic`), and in no case is
the failed call re-issued before its results are consumed. -/
def FilesLoop (beforeTSUnix : Int) (acc : List File) : List FilesResp → FOutcome
  | [] => .spin
  | .okF items cursor :: rest =>
    let acc2 := acc ++ items.filter (fun f => fileSelected beforeTSUnix f)
    if cursor = "" then .done acc2 else FilesLoop beforeTSUnix acc2 rest
  | .errF text items nextParams :: rest =>
    if ratelimitOrPanicReturns text.data then
      let acc2 := acc ++ items.filter (fun f => fileSelected beforeTSUnix f)
      match nextParams with
      | none => .nilPanic
      | some cursor =>
        if cursor = "" then .done acc2 else FilesLoop beforeTSUnix acc2 rest
    else .fatal text

/-! ## Deletion executors (cli.go:408-447) -/

/-- One delete-operation response: success, or an error with its text. -/
inductive DelResp where
  | ok
  | errS (text : String)
deriving DecidableEq, Repr

/-- Outcome of a deletion pass. -/
inductive DelOutcome where
  | success
  | fatal
  | spin
deriving DecidableEq, Repr

/-- The retry loop around one delete operation (cli.go:411-423 and
431-443): an error exactly equal to `notFoundText` breaks out of the loop
(treated as success); otherwise `ratelimitOrPanic` either panics or
sleeps, and the loop retries; a success breaks out. -/
def deleteOneLoop (notFoundText : String) : List DelResp → DelOutcome
  | [] => .spin
  | .ok :: _ => .success
  | .errS text :: rest =>
    if text = notFoundText then .success
    else if ratelimitOrPanicReturns text.data then deleteOneLoop notFoundText rest
    else .fatal

/-- Iterate the per-item retry loop over a staged item list, one response
script per item; stop at the first fatal outcome. -/
def deleteAll (notFoundText : String) : List (List DelResp) → DelOutcome
  | [] => .success
  | rs :: rest =>
    match deleteOneLoop notFoundText rs with
    | .success => deleteAll notFoundText rest
    | .fatal => .fatal
    | .spin => .spin

/-- `DeleteMessages` (cli.go:408-427): "message_not_found" is the
treated-as-success error. -/
def DeleteMessages (scripts : List (List DelResp)) : DelOutcome :=
  deleteAll "message_not_found" scripts

/-- `DeleteFiles` (cli.go:429-447): "file_not_found" is the
treated-as-success error. -/
def DeleteFiles (scripts : List (List DelResp)) : DelOutcome :=
  deleteAll "file_not_found" scripts

/-! ## The commit gate of main (cli.go:83-97) -/

/-- Externally visible actions of the tail of `main`. -/
inductive RunAction where
  | reportCounts (nMessages nFiles : Nat)
  | deleteMessageCall (channel timestamp : String)
  | deleteFileCall (fileID : String)
deriving DecidableEq, Repr

/-- The remote delete calls `DeleteMessages` issues on the happy path:
one `DeleteMessage(m.Channel, m.Timestamp)` per staged message. -/
def DeleteMessagesCalls (ms : List Message) : List RunAction :=
  ms.map (fun m => .deleteMessageCall m.Channel m.Timestamp)

/-- The remote delete calls `DeleteFiles` issues on the happy path:
one `DeleteFile(f.ID)` per staged file. -/
def DeleteFilesCalls (fs : List File) : List RunAction :=
  fs.map (fun f => .deleteFileCall f.ID)

/-- The tail of `main` (cli.go:83-97): report the staged counts; when
`--commit` is absent, print a hint and exit BEFORE any delete call; when
present, run `DeleteMessages` then `DeleteFiles`. -/
def mainFinish (commit : Bool) (ms : List Message) (fs : List File) :
    List RunAction :=
  .reportCounts ms.length fs.length ::
    (if commit then DeleteMessagesCalls ms ++ DeleteFilesCalls fs else [])

/-- Is an action a remote delete invocation? -/
def isDeleteCall : RunAction → Bool
  | .deleteMessageCall _ _ => true
  | .deleteFileCall _ => true
  | .reportCounts _ _ => false

/-! ## Lemmas on the split/parse primitives -/

theorem splitOnChar_ne_nil (sep : Char) (cs : List Char) :
    splitOnChar sep cs ≠ [] := by
  cases cs with
  | nil => simp [splitOnChar]
  | cons c cs =>
    simp only [splitOnChar]
    split
    · simp
    · split <;> simp

theorem splitOnChar_of_not_mem (sep : Char) (cs : List Char)
    (h : sep ∉ cs) : splitOnChar sep cs = [cs] := by
  induction cs with
  | nil => rfl
  | cons c cs ih =>
    have hc : c ≠ sep := fun hcs => h (hcs ▸ List.mem_cons_self c cs)
    have hcs : sep ∉ cs := fun hm => h (List.mem_cons_of_mem c hm)
    simp only [splitOnChar, if_neg hc, ih hcs]

theorem splitOnChar_append (sep : Char) (a b : List Char)
    (ha : sep ∉ a) : splitOnChar sep (a ++ sep :: b) = a :: splitOnChar sep b := by
  induction a with
  | nil => simp [splitOnChar]
  | cons c a ih =>
    have hc : c ≠ sep := fun hcs => ha (hcs ▸ List.mem_cons_self c a)
    have ha2 : sep ∉ a := fun hm => ha (List.mem_cons_of_mem c hm)
    simp only [List.cons_append, splitOnChar, if_neg hc, List.append_eq, ih ha2]

theorem splitOnChar_two_le_length (sep : Char) (cs : List Char)
    (h : sep ∈ cs) : 2 ≤ (splitOnChar sep cs).length := by
  induction cs with
  | nil => cases h
  | cons c cs ih =>
    by_cases hc : c = sep
    · subst hc
      have h1 : splitOnChar c (c :: cs) = [] :: splitOnChar c cs := by
        simp [splitOnChar]
      rw [h1, List.length_cons]
      have h2 : 0 < (splitOnChar c cs).length :=
        List.length_pos.mpr (splitOnChar_ne_nil c cs)
      omega
    · have hm : sep ∈ cs := by
        cases h with
        | head => exact absurd rfl hc
        | tail _ h => exact h
      have h2 := ih hm
      simp only [splitOnChar, if_neg hc]
      rcases hsp : splitOnChar sep cs with _ | ⟨p, ps⟩
      · exact absurd hsp (splitOnChar_ne_nil sep cs)
      · rw [hsp] at h2
        simpa using h2

/-- A list of ASCII digits never contains the dot separator. -/
theorem not_dot_mem_of_allDigits (cs : List Char)
    (h : allDigits cs = true) : '.' ∉ cs := by
  intro hm
  have := List.all_eq_true.mp h '.' hm
  simp [isDigitChar] at this

theorem parseDigitsGo_pos (cs : List Char) (h1 : cs ≠ [])
    (h2 : allDigits cs = true) (h3 : (digitsVal cs : Int) ≤ maxInt64) :
    parseDigitsGo false cs = ((digitsVal cs : Int), true) := by
  simp only [parseDigitsGo, if_neg h1, h2, if_pos h3, if_true, Bool.false_eq_true,
    if_false]

theorem parseIntGo_digits (cs : List Char) (h1 : cs ≠ [])
    (h2 : allDigits cs = true) (h3 : (digitsVal cs : Int) ≤ maxInt64) :
    parseIntGo cs = ((digitsVal cs : Int), true) := by
  cases cs with
  | nil => exact absurd rfl h1
  | cons c rest =>
    have hc : isDigitChar c = true := List.all_eq_true.mp h2 c (List.mem_cons_self c rest)
    have hplus : c ≠ '+' := by
      intro hcp; subst hcp; simp [isDigitChar] at hc
    have hminus : c ≠ '-' := by
      intro hcp; subst hcp; simp [isDigitChar] at hc
    simp only [parseIntGo, if_neg hplus, if_neg hminus]
    exact parseDigitsGo_pos (c :: rest) h1 h2 h3

theorem digitsVal_foldl (a : Nat) (cs : List Char) :
    cs.foldl (fun x c => x * 10 + digitVal c) a =
      a * 10 ^ cs.length + digitsVal cs := by
  induction cs generalizing a with
  | nil => simp [digitsVal]
  | cons c cs ih =>
    simp only [List.foldl_cons, List.length_cons, digitsVal]
    rw [ih (a * 10 + digitVal c), ih (0 * 10 + digitVal c)]
    ring

theorem digitsVal_cons (c : Char) (cs : List Char) :
    digitsVal (c :: cs) = digitVal c * 10 ^ cs.length + digitsVal cs := by
  simp only [digitsVal, List.foldl_cons]
  rw [digitsVal_foldl (0 * 10 + digitVal c) cs]
  ring_nf
  rw [digitsVal]

theorem digitVal_le_nine (c : Char) (h : isDigitChar c = true) :
    digitVal c ≤ 9 := by
  simp only [isDigitChar, Bool.and_eq_true, decide_eq_true_eq] at h
  simp only [digitVal]
  omega

theorem digitsVal_lt (cs : List Char) (h : allDigits cs = true) :
    digitsVal cs < 10 ^ cs.length := by
  induction cs with
  | nil => simp [digitsVal]
  | cons c cs ih =>
    have hc : isDigitChar c = true :=
      List.all_eq_true.mp h c (List.mem_cons_self c cs)
    have hcs : allDigits cs = true := by
      simp only [allDigits, List.all_cons, Bool.and_eq_true] at h
      exact h.2
    have h1 := ih hcs
    have h2 := digitVal_le_nine c hc
    rw [digitsVal_cons, List.length_cons, pow_succ]
    have h3 : digitVal c * 10 ^ cs.length ≤ 9 * 10 ^ cs.length :=
      Nat.mul_le_mul_right _ h2
    omega

/-- On equal-length ASCII digit strings, Go byte-wise comparison computes
the numeric order of their decimal values. -/
theorem goLt_digits (a b : List Char) (ha : allDigits a = true)
    (hb : allDigits b = true) (hlen : a.length = b.length) :
    goLtChars a b = decide (digitsVal a < digitsVal b) := by
  induction a generalizing b with
  | nil =>
    cases b with
    | nil => simp [goLtChars, digitsVal]
    | cons y ys => simp at hlen
  | cons x xs ih =>
    cases b with
    | nil => simp at hlen
    | cons y ys =>
      have hx : isDigitChar x = true :=
        List.all_eq_true.mp ha x (List.mem_cons_self x xs)
      have hy : isDigitChar y = true :=
        List.all_eq_true.mp hb y (List.mem_cons_self y ys)
      have hxs : allDigits xs = true := by
        simp only [allDigits, List.all_cons, Bool.and_eq_true] at ha
        exact ha.2
      have hys : allDigits ys = true := by
        simp only [allDigits, List.all_cons, Bool.and_eq_true] at hb
        exact hb.2
      have hlen2 : xs.length = ys.length := by
        simpa using hlen
      have hxb : 48 ≤ x.toNat ∧ x.toNat ≤ 57 := by
        simp only [isDigitChar, Bool.and_eq_true, decide_eq_true_eq] at hx
        exact hx
      have hyb : 48 ≤ y.toNat ∧ y.toNat ≤ 57 := by
        simp only [isDigitChar, Bool.and_eq_true, decide_eq_true_eq] at hy
        exact hy
      have hvx := digitsVal_lt xs hxs
      have hvy := digitsVal_lt ys hys
      rw [digitsVal_cons, digitsVal_cons, hlen2]
      set P := 10 ^ ys.length with hP
      rcases Nat.lt_trichotomy x.toNat y.toNat with hlt | heq | hgt
      · have hdv : digitVal x + 1 ≤ digitVal y := by
          simp only [digitVal]; omega
        have hmul : (digitVal x + 1) * P ≤ digitVal y * P :=
          Nat.mul_le_mul_right _ hdv
        rw [add_mul, one_mul] at hmul
        have hvx2 : digitsVal xs < P := by rw [hP, ← hlen2]; exact hvx
        have hgoal : digitVal x * P + digitsVal xs < digitVal y * P + digitsVal ys := by
          have : digitVal x * P + digitsVal xs < digitVal x * P + P :=
            Nat.add_lt_add_left hvx2 _
          omega
        simp only [goLtChars, if_pos hlt]
        exact (decide_eq_true hgoal).symm
      · have hdv : digitVal x = digitVal y := by
          simp only [digitVal]; omega
        have hif1 : ¬ x.toNat < y.toNat := by omega
        have hif2 : ¬ y.toNat < x.toNat := by omega
        simp only [goLtChars, if_neg hif1, if_neg hif2]
        rw [ih ys hxs hys hlen2, hdv]
        exact decide_eq_decide.mpr ((add_lt_add_iff_left _).symm)
      · have hdv : digitVal y + 1 ≤ digitVal x := by
          simp only [digitVal]; omega
        have hmul : (digitVal y + 1) * P ≤ digitVal x * P :=
          Nat.mul_le_mul_right _ hdv
        rw [add_mul, one_mul] at hmul
        have hgoal : ¬ (digitVal x * P + digitsVal xs < digitVal y * P + digitsVal ys) := by
          have : digitVal y * P + digitsVal ys < digitVal y * P + P :=
            Nat.add_lt_add_left hvy _
          omega
        have hif1 : ¬ x.toNat < y.toNat := by omega
        simp only [goLtChars, if_neg hif1, if_pos hgt]
        exact (decide_eq_false hgoal).symm

/-- Go byte-wise comparison of equal-length-prefixed concatenations:
decided on the prefixes when they differ, on the suffixes otherwise. -/
theorem goLt_append (a b c d : List Char) (hlen : a.length = b.length) :
    goLtChars (a ++ c) (b ++ d) =
      if goLtChars a b = true then true
      else if goLtChars b a = true then false
      else goLtChars c d := by
  induction a generalizing b with
  | nil =>
    cases b with
    | nil => simp [goLtChars]
    | cons y ys => simp at hlen
  | cons x xs ih =>
    cases b with
    | nil => simp at hlen
    | cons y ys =>
      have hlen2 : xs.length = ys.length := by simpa using hlen
      rcases Nat.lt_trichotomy x.toNat y.toNat with hlt | heq | hgt
      · simp [goLtChars, if_pos hlt, hlt]
      · have hif1 : ¬ x.toNat < y.toNat := by omega
        have hif2 : ¬ y.toNat < x.toNat := by omega
        simp only [List.cons_append, goLtChars, if_neg hif1, if_neg hif2]
        exact ih ys hlen2
      · have hif1 : ¬ x.toNat < y.toNat := by omega
        simp [goLtChars, if_neg hif1, if_pos hgt, hgt]

theorem SlackTSToTime_append (a b : List Char)
    (ha : '.' ∉ a) (hb : '.' ∉ b) :
    SlackTSToTime (a ++ '.' :: b) =
      some ((parseIntGo a).1 * 1000000000 + (parseIntGo b).1 * 1000) := by
  simp only [SlackTSToTime, splitOnChar_append '.' a b ha,
    splitOnChar_of_not_mem '.' b hb]

/-- Decoding a well-formed in-range Slack timestamp `secs.micros`
(digit strings, six-digit fraction): the nanosecond instant
`SlackTSToTime` builds. -/
theorem SlackTSToTime_digits (s m : List Char) (hs0 : s ≠ [])
    (hsd : allDigits s = true) (hmd : allDigits m = true)
    (hsr : (digitsVal s : Int) ≤ maxInt64) (hmr : (digitsVal m : Int) ≤ maxInt64) :
    SlackTSToTime (s ++ '.' :: m) =
      some ((digitsVal s : Int) * 1000000000 + (digitsVal m : Int) * 1000) := by
  have hm0 : m ≠ [] ∨ m = [] := (em (m = [])).symm.imp id id
  rw [SlackTSToTime_append s m (not_dot_mem_of_allDigits s hsd)
      (not_dot_mem_of_allDigits m hmd)]
  rw [parseIntGo_digits s hs0 hsd hsr]
  rcases hm0 with hm0 | hm0
  · rw [parseIntGo_digits m hm0 hmd hmr]
  · subst hm0
    simp [parseIntGo, digitsVal]

/-- Go byte-wise order on two encoded timestamps with equal-length
seconds parts and six-digit microsecond parts computes the numeric order
of `seconds * 10^6 + microseconds`. -/
theorem goLt_encoded (s1 m1 s2 m2 : List Char)
    (hs1 : allDigits s1 = true) (hm1 : allDigits m1 = true)
    (hs2 : allDigits s2 = true) (hm2 : allDigits m2 = true)
    (hlen : s1.length = s2.length) (hl1 : m1.length = 6) (hl2 : m2.length = 6) :
    goLtChars (s1 ++ '.' :: m1) (s2 ++ '.' :: m2) =
      decide (digitsVal s1 * 1000000 + digitsVal m1 <
              digitsVal s2 * 1000000 + digitsVal m2) := by
  have hmb1 : digitsVal m1 < 1000000 := by
    have := digitsVal_lt m1 hm1
    rw [hl1] at this
    simpa using this
  have hmb2 : digitsVal m2 < 1000000 := by
    have := digitsVal_lt m2 hm2
    rw [hl2] at this
    simpa using this
  rw [goLt_append s1 s2 ('.' :: m1) ('.' :: m2) hlen]
  have hdot : goLtChars ('.' :: m1) ('.' :: m2) = goLtChars m1 m2 := by
    simp [goLtChars]
  rw [hdot, goLt_digits s1 s2 hs1 hs2 hlen,
    goLt_digits s2 s1 hs2 hs1 hlen.symm,
    goLt_digits m1 m2 hm1 hm2 (by omega)]
  by_cases h1 : digitsVal s1 < digitsVal s2
  · have : digitsVal s1 * 1000000 + digitsVal m1 <
        digitsVal s2 * 1000000 + digitsVal m2 := by omega
    simp [h1, this]
  · by_cases h2 : digitsVal s2 < digitsVal s1
    · have : ¬ (digitsVal s1 * 1000000 + digitsVal m1 <
          digitsVal s2 * 1000000 + digitsVal m2) := by omega
      simp [h1, h2, this]
    · have heq : digitsVal s1 = digitsVal s2 := by omega
      have : (digitsVal s1 * 1000000 + digitsVal m1 <
          digitsVal s2 * 1000000 + digitsVal m2) ↔ digitsVal m1 < digitsVal m2 := by
        omega
      simp [h1, h2, this]

/-- Bridge: for well-formed equal-seconds-length encodings, the Go string
order of the encoded forms is the numeric order of the decoded instants. -/
theorem goLt_decoded_iff (s1 m1 s2 m2 : List Char) (v1 v2 : Int)
    (hs10 : s1 ≠ []) (hs1 : allDigits s1 = true) (hm1 : allDigits m1 = true)
    (hs20 : s2 ≠ []) (hs2 : allDigits s2 = true) (hm2 : allDigits m2 = true)
    (hlen : s1.length = s2.length) (hl1 : m1.length = 6) (hl2 : m2.length = 6)
    (hr1 : (digitsVal s1 : Int) ≤ maxInt64) (hr2 : (digitsVal s2 : Int) ≤ maxInt64)
    (hv1 : SlackTSToTime (s1 ++ '.' :: m1) = some v1)
    (hv2 : SlackTSToTime (s2 ++ '.' :: m2) = some v2) :
    goLtChars (s1 ++ '.' :: m1) (s2 ++ '.' :: m2) = true ↔ v1 < v2 := by
  have hmb1 : digitsVal m1 < 1000000 := by
    have := digitsVal_lt m1 hm1
    rw [hl1] at this
    simpa using this
  have hmb2 : digitsVal m2 < 1000000 := by
    have := digitsVal_lt m2 hm2
    rw [hl2] at this
    simpa using this
  have hmr1 : (digitsVal m1 : Int) ≤ maxInt64 := by
    simp only [maxInt64]
    omega
  have hmr2 : (digitsVal m2 : Int) ≤ maxInt64 := by
    simp only [maxInt64]
    omega
  rw [SlackTSToTime_digits s1 m1 hs10 hs1 hm1 hr1 hmr1] at hv1
  rw [SlackTSToTime_digits s2 m2 hs20 hs2 hm2 hr2 hmr2] at hv2
  have hv1e := Option.some.inj hv1
  have hv2e := Option.some.inj hv2
  rw [goLt_encoded s1 m1 s2 m2 hs1 hm1 hs2 hm2 hlen hl1 hl2,
    decide_eq_true_iff]
  rw [← hv1e, ← hv2e]
  omega

/-- Running `repliesLoop` over a well-formed script collects every reply
of every page, in page order, each stamped with the channel id. -/
theorem repliesLoop_script (cid : String) (acc : List Message)
    (init : List (List Message × String)) (lastPage : List Message) :
    repliesLoop cid acc (repliesScript init lastPage) =
      .done (acc ++ ((init.map Prod.fst).flatten ++ lastPage).map
        (fun r => { r with Channel := cid })) := by
  induction init generalizing acc with
  | nil => simp [repliesScript, repliesLoop]
  | cons p ps ih =>
    simp only [repliesScript, List.map_cons, List.cons_append, repliesLoop,
      if_true, List.append_eq] at ih ⊢
    rw [ih]
    simp [List.map_append]

/-- All-not-found response scripts make a deletion pass succeed. -/
theorem deleteAll_notFound (notFoundText : String)
    (scripts : List (List DelResp))
    (h : ∀ rs ∈ scripts, rs.head? = some (.errS notFoundText)) :
    deleteAll notFoundText scripts = .success := by
  induction scripts with
  | nil => rfl
  | cons rs rest ih =>
    have h1 := h rs (List.mem_cons_self rs rest)
    have h2 : ∀ r ∈ rest, r.head? = some (.errS notFoundText) :=
      fun r hr => h r (List.mem_cons_of_mem rs hr)
    cases rs with
    | nil => simp at h1
    | cons r rs2 =>
      simp only [List.head?_cons, Option.some.injEq] at h1
      subst h1
      simp only [deleteAll, deleteOneLoop, if_pos rfl]
      exact ih h2

/-! ## The claims -/

/-- C1: the spec and the README say a run with an author filter deletes
the content *by* the target identity and keeps everyone else's.  The
message guard at cli.go:318-323 does the opposite: `m.User == userID`
hits `continue` (keep), so the target's own message below the cutoff is
kept while another author's message below the cutoff is staged for
deletion.  This theorem evaluates the embedded guard at the failing
input. -/
theorem c1_author_filter_inverted :
    messageSelected "U1" "1588291200.000000"
      ⟨"U2", "1500000000.000000", "", "", "by another user"⟩ = true ∧
    messageSelected "U1" "1588291200.000000"
      ⟨"U1", "1500000000.000000", "", "", "by the target user"⟩ = false := by
  decide

/-- C2 (counterexample): the claim says a message whose timestamp equals
the cutoff is excluded (strict `<`).  The guard at cli.go:325 keeps only
`m.Timestamp > s.beforeTS`, so the equal-timestamp message IS staged for
deletion. -/
theorem c2_counterexample_equal_timestamp_deleted :
    messageSelected "" "1588291200.000000"
      ⟨"U2", "1588291200.000000", "", "", "at the cutoff"⟩ = true := by
  decide

/-- C2 (amended): the message time filter admits a message exactly when
its timestamp is NOT Go-string-greater than the cutoff's Slack-TS
encoding — i.e. `≤` on the decoded instants for well-formed encodings of
equal seconds width (equality included) — while the file filter is
strict: a file is admitted exactly when `Created < beforeTSUnix`. -/
theorem c2_time_filter_le_semantics (s1 m1 s2 m2 : List Char) (v1 v2 : Int)
    (mm : Message) (f : File) (beforeUnix : Int)
    (hts : mm.Timestamp = String.mk (s1 ++ '.' :: m1))
    (hs10 : s1 ≠ []) (hs1 : allDigits s1 = true) (hm1 : allDigits m1 = true)
    (hs20 : s2 ≠ []) (hs2 : allDigits s2 = true) (hm2 : allDigits m2 = true)
    (hlen : s1.length = s2.length) (hl1 : m1.length = 6) (hl2 : m2.length = 6)
    (hr1 : (digitsVal s1 : Int) ≤ maxInt64) (hr2 : (digitsVal s2 : Int) ≤ maxInt64)
    (hv1 : SlackTSToTime (s1 ++ '.' :: m1) = some v1)
    (hv2 : SlackTSToTime (s2 ++ '.' :: m2) = some v2) :
    (messageSelected "" (String.mk (s2 ++ '.' :: m2)) mm = true ↔ v1 ≤ v2) ∧
    (fileSelected beforeUnix f = true ↔ f.Created < beforeUnix) := by
  constructor
  · have hgt : goStrGt mm.Timestamp (String.mk (s2 ++ '.' :: m2)) = true ↔ v2 < v1 := by
      rw [hts]
      exact goLt_decoded_iff s2 m2 s1 m1 v2 v1 hs20 hs2 hm2 hs10 hs1 hm1
        hlen.symm hl2 hl1 hr2 hr1 hv2 hv1
    simp only [messageSelected]
    rw [if_neg (by simp)]
    by_cases hg : goStrGt mm.Timestamp (String.mk (s2 ++ '.' :: m2)) = true
    · rw [if_pos hg]
      have := hgt.mp hg
      constructor
      · intro hfalse; exact absurd hfalse (by simp)
      · intro hle; omega
    · rw [if_neg hg]
      have hnot : ¬ v2 < v1 := fun hlt => hg (hgt.mpr hlt)
      constructor
      · intro _; omega
      · intro _; rfl
  · simp [fileSelected]

theorem c2_time_filter_le_semantics_witness :
    (messageSelected "" (String.mk ("1588291200".data ++ '.' :: "000001".data))
        ⟨"U", "1588291200.000000", "", "", "t"⟩ = true ↔
      (1588291200000000000 : Int) ≤ 1588291200000001000) ∧
    (fileSelected 100 ⟨"F", "f", 10⟩ = true ↔ (10 : Int) < 100) :=
  c2_time_filter_le_semantics "1588291200".data "000000".data
    "1588291200".data "000001".data
    1588291200000000000 1588291200000001000
    ⟨"U", "1588291200.000000", "", "", "t"⟩ ⟨"F", "f", 10⟩ 100
    (by decide) (by decide) (by decide) (by decide) (by decide) (by decide)
    (by decide) (by decide) (by decide) (by decide) (by decide) (by decide)
    (by decide) (by decide)

/-- C3: both deletion executors treat the platform's "already absent"
error (`message_not_found` for messages at cli.go:414, `file_not_found`
for files at cli.go:434) as success and move to the next item, so a
second run over an already-processed item set — every delete call
answering not-found — succeeds for both passes. -/
theorem c3_idempotent_deletion (mScripts fScripts : List (List DelResp))
    (hm : ∀ rs ∈ mScripts, rs.head? = some (.errS "message_not_found"))
    (hf : ∀ rs ∈ fScripts, rs.head? = some (.errS "file_not_found")) :
    DeleteMessages mScripts = .success ∧ DeleteFiles fScripts = .success :=
  ⟨deleteAll_notFound "message_not_found" mScripts hm,
   deleteAll_notFound "file_not_found" fScripts hf⟩

theorem c3_idempotent_deletion_witness :
    DeleteMessages [[.errS "message_not_found"], [.errS "message_not_found"]] = .success ∧
    DeleteFiles [[.errS "file_not_found"]] = .success :=
  c3_idempotent_deletion
    [[.errS "message_not_found"], [.errS "message_not_found"]]
    [[.errS "file_not_found"]] (by decide) (by decide)

/-- C4: the claim says every rate-limited remote failure is retried (the
same operation re-issued) until a successful result is returned.  The
reply-listing loop does behave that way (third conjunct), but the `Files`
page loop at cli.go:196-218 has no `continue` after `ratelimitOrPanic`:
a rate-limited `ListFiles` failure falls through, the failed call's nil
results are consumed, and reading `p.Cursor` from the nil params is a
nil-pointer dereference — the operation is never retried (first
conjunct).  A non-rate-limited failure does abort (second conjunct). -/
theorem c4_files_rate_limit_fall_through :
    FilesLoop 100 [] [.errF "slack rate limit exceeded" [] none,
      .okF [⟨"F1", "f.txt", 50⟩] ""] = .nilPanic ∧
    FilesLoop 100 [] [.errF "boom" [] none] = .fatal "boom" ∧
    repliesLoop "C1" [] [.errR "a rate limit was hit",
      .okR [⟨"U9", "1.000000", "", "", "r"⟩] false ""] =
      .done [⟨"U9", "1.000000", "", "C1", "r"⟩] := by
  decide

/-- C5: a staged thread-root message (non-empty thread timestamp equal to
its own timestamp) causes every reply of every fetched page to be
appended exactly once, in page order, with no time or author filter
re-applied, each stamped with the parent conversation id. -/
theorem c5_thread_expansion (userID beforeTS cid : String) (m : Message)
    (init : List (List Message × String)) (lastPage : List Message)
    (hsel : messageSelected userID beforeTS m = true)
    (hroot1 : m.ThreadTimestamp ≠ "") (hroot2 : m.Timestamp = m.ThreadTimestamp) :
    processMessage userID beforeTS cid m (repliesScript init lastPage) =
      .done ({ m with Channel := cid } ::
        ((init.map Prod.fst).flatten ++ lastPage).map
          (fun r => { r with Channel := cid })) := by
  simp only [processMessage, hsel, if_true, if_pos (And.intro hroot1 hroot2)]
  rw [repliesLoop_script cid [] init lastPage]
  simp

theorem c5_thread_expansion_witness :
    processMessage "U1" "1588291200.000000" "C42"
      ⟨"U2", "1000.000000", "1000.000000", "", "root"⟩
      (repliesScript
        [([⟨"U1", "9999999999.000000", "1000.000000", "X", "reply by filtered user, after cutoff"⟩], "cur")]
        [⟨"U3", "0.000001", "1000.000000", "Y", "r2"⟩]) =
      .done [⟨"U2", "1000.000000", "1000.000000", "C42", "root"⟩,
        ⟨"U1", "9999999999.000000", "1000.000000", "C42", "reply by filtered user, after cutoff"⟩,
        ⟨"U3", "0.000001", "1000.000000", "C42", "r2"⟩] := by
  simpa using c5_thread_expansion "U1" "1588291200.000000" "C42"
    ⟨"U2", "1000.000000", "1000.000000", "", "root"⟩
    [([⟨"U1", "9999999999.000000", "1000.000000", "X", "reply by filtered user, after cutoff"⟩], "cur")]
    [⟨"U3", "0.000001", "1000.000000", "Y", "r2"⟩]
    (by decide) (by decide) rfl

/-- C6 (counterexample): both encodings are produced by `TimeToSlackTS`
and decode through `SlackTSToTime`, the decoded instants order 9s < 10s,
yet Go byte-wise string comparison orders the encoded forms the other way
("10.000000" < "9.000000"), because the seconds field is NOT fixed-width:
only the microsecond field is zero-padded. -/
theorem c6_counterexample_variable_width :
    TimeToSlackTS 9000000000 = some "9.000000".data ∧
    TimeToSlackTS 10000000000 = some "10.000000".data ∧
    SlackTSToTime "9.000000".data = some 9000000000 ∧
    SlackTSToTime "10.000000".data = some 10000000000 ∧
    (9000000000 : Int) < 10000000000 ∧
    goLtChars "9.000000".data "10.000000".data = false ∧
    goLtChars "10.000000".data "9.000000".data = true := by
  decide

/-- C6 (amended): restricted to encoded pairs whose seconds parts have
the same digit width (with the six-digit zero-padded microsecond field),
numeric comparison of the decoded instants agrees with Go byte-wise
string comparison of the encoded forms. -/
theorem c6_comparison_equivalence_equal_width (s1 m1 s2 m2 : List Char)
    (v1 v2 : Int)
    (hs10 : s1 ≠ []) (hs1 : allDigits s1 = true) (hm1 : allDigits m1 = true)
    (hs20 : s2 ≠ []) (hs2 : allDigits s2 = true) (hm2 : allDigits m2 = true)
    (hlen : s1.length = s2.length) (hl1 : m1.length = 6) (hl2 : m2.length = 6)
    (hr1 : (digitsVal s1 : Int) ≤ maxInt64) (hr2 : (digitsVal s2 : Int) ≤ maxInt64)
    (hv1 : SlackTSToTime (s1 ++ '.' :: m1) = some v1)
    (hv2 : SlackTSToTime (s2 ++ '.' :: m2) = some v2) :
    goLtChars (s1 ++ '.' :: m1) (s2 ++ '.' :: m2) = true ↔ v1 < v2 :=
  goLt_decoded_iff s1 m1 s2 m2 v1 v2 hs10 hs1 hm1 hs20 hs2 hm2 hlen hl1 hl2
    hr1 hr2 hv1 hv2

theorem c6_comparison_equivalence_witness :
    (goLtChars "1588291200.000000".data "1588291200.000001".data = true ↔
      (1588291200000000000 : Int) < 1588291200000001000) :=
  c6_comparison_equivalence_equal_width
    "1588291200".data "000000".data "1588291200".data "000001".data
    1588291200000000000 1588291200000001000
    (by decide) (by decide) (by decide) (by decide) (by decide) (by decide)
    (by decide) (by decide) (by decide) (by decide) (by decide)
    (by decide) (by decide)

/-- C7 (counterexample): the claim says a non-integer part yields an
error rather than a decoded timestamp.  `SlackTSToTime` discards both
`strconv.ParseInt` errors (`sec, _ := ...`, cli.go:132-133): "x.y" has
two non-integer parts, both parses fail, and decoding still produces the
instant 0. -/
theorem c7_counterexample_malformed_accepted :
    SlackTSToTime "x.y".data = some 0 ∧
    parseIntGo "x".data = (0, false) ∧
    parseIntGo "y".data = (0, false) := by
  decide

/-- C7 (amended): parsing splits on the decimal point, but parse failures
of the parts are silently ignored: whenever both parts fail to parse
(value 0, ok false) the decoder still returns the instant 0 — no
malformed-timestamp error exists for non-integer parts. -/
theorem c7_parse_errors_ignored (a b : List Char)
    (ha : '.' ∉ a) (hb : '.' ∉ b)
    (hpa : parseIntGo a = (0, false)) (hpb : parseIntGo b = (0, false)) :
    SlackTSToTime (a ++ '.' :: b) = some 0 := by
  rw [SlackTSToTime_append a b ha hb, hpa, hpb]
  norm_num

theorem c7_parse_errors_ignored_witness :
    SlackTSToTime ("x".data ++ '.' :: "y".data) = some 0 :=
  c7_parse_errors_ignored "x".data "y".data
    (by decide) (by decide) (by decide) (by decide)

/-- C8 (counterexample): the claim says an unresolved peer id falls back
to the raw peer id as display name.  The Go map read `users[c.User]` at
cli.go:256 yields the zero value "" for an absent key, so the name used
is the empty string, not the peer id "U9". -/
theorem c8_counterexample_unresolved_peer :
    channelFilterName [("U1", "alice")] ⟨"D9", "", "U9", false, true, false⟩ = "" ∧
    "U9" ≠ "" := by
  decide

/-- C8 (amended): for a direct conversation the filter-matchable name is
the peer's handle resolved through the id-to-handle mapping (never the
conversation id); when the peer id is absent from the mapping the name is
the empty string (the Go map zero value), not the raw peer id. -/
theorem c8_direct_name_resolution (users : List (String × String)) (c : Chan)
    (h1 : c.IsMpIM = false) (h2 : c.IsIM = true) :
    (∀ handle, users.lookup c.User = some handle →
      channelFilterName users c = handle) ∧
    (users.lookup c.User = none → channelFilterName users c = "") := by
  constructor
  · intro handle hh
    simp [channelFilterName, h1, h2, goMapGet, hh]
  · intro hh
    simp [channelFilterName, h1, h2, goMapGet, hh]

theorem c8_direct_name_resolution_witness :
    channelFilterName [("U9", "bob")] ⟨"D9", "", "U9", false, true, false⟩ = "bob" ∧
    channelFilterName [] ⟨"D9", "", "U9", false, true, false⟩ = "" :=
  ⟨(c8_direct_name_resolution [("U9", "bob")]
      ⟨"D9", "", "U9", false, true, false⟩ rfl rfl).1 "bob" (by decide),
   (c8_direct_name_resolution []
      ⟨"D9", "", "U9", false, true, false⟩ rfl rfl).2 (by decide)⟩

/-- C9: when the commit flag is absent, `main` reports the staged counts
and exits before the deletion executors run (cli.go:85-88): the action
trace of a dry run contains no delete call, for every staged item set. -/
theorem c9_dry_run_no_deletes (ms : List Message) (fs : List File) :
    (mainFinish false ms fs).all (fun a => !isDeleteCall a) = true := by
  simp [mainFinish, isDeleteCall]

/-- C10: decoding is partial exactly as claimed: `SlackTSToTime` reads
the second split component unconditionally (cli.go:133), so it succeeds
precisely when the input contains a decimal point; an input without one
hits the out-of-bounds access, modelled as `none`. -/
theorem c10_decode_partial_without_dot (cs : List Char) :
    (SlackTSToTime cs).isSome = true ↔ '.' ∈ cs := by
  constructor
  · intro h
    by_contra hn
    rw [SlackTSToTime] at h
    rw [splitOnChar_of_not_mem '.' cs hn] at h
    simp at h
  · intro h
    have h2 := splitOnChar_two_le_length '.' cs h
    rcases hsp : splitOnChar '.' cs with _ | ⟨p0, _ | ⟨p1, ps⟩⟩
    · exact absurd hsp (splitOnChar_ne_nil '.' cs)
    · rw [hsp] at h2
      simp at h2
    · simp [SlackTSToTime, hsp]

end SlackClean
